import Mathlib

/-!
Verification development for the eathereum stablecoin pipeline.

The repository watches an EVM chain for stablecoin Transfer events
(block-monitor crate), fans them out to sinks including a Redis stream,
and a game-server crate consumes the stream and broadcasts to WebSocket
clients.  The definitions below are shallow embeddings of the relevant
Rust functions; machine integers are modelled as Nat with explicit
reductions modulo 2 ^ w where wrapping matters.
-/

namespace Eathereum

/-- Size of the u64 value space. -/
def U64_SIZE : Nat := 2 ^ 64

/-- Size of the U256 value space (alloy U256). -/
def U256_SIZE : Nat := 2 ^ 256

/-! ### Decimal strings

Rust renders unsigned integers with the standard decimal Display; we embed
that as `Nat.repr`, which produces the same digit string. -/

/-- Left-pad a string with the character 0 up to width `w`; embedding of the
Rust format specifier `{:0w$}` applied to an unsigned integer already
rendered as `s` (no sign is involved for unsigned values). -/
def zeroPad (w : Nat) (s : String) : String :=
  String.mk (List.replicate (w - s.length) '0') ++ s

/-- Big-endian decimal digit accumulator: the numeric value of a digit
character list, as read left to right.  Used to model the digit loop of
u64 parsing in Rust core. -/
def digitsToNat (cs : List Char) : Nat :=
  cs.foldl (fun a c => a * 10 + (c.toNat - 48)) 0

/-- Model of `u64::from_str` from Rust core applied to `s`: an optional
leading plus sign, then one or more ASCII digits, value below 2 ^ 64;
anything else fails. -/
def parse_u64 (s : String) : Option Nat :=
  match s.data with
  | [] => none
  | c :: cs =>
    let ds := if c = '+' then cs else c :: cs
    if ds.isEmpty then none
    else if ds.all Char.isDigit then
      if digitsToNat ds < U64_SIZE then some (digitsToNat ds) else none
    else none

/-! ### format_amount (src/block-monitor/src/blockchain.rs, lines 94-107)

The Rust function computes `divisor = U256::from(10).pow(decimals)` (ruint
pow is wrapping, hence the reduction modulo 2 ^ 256), then splits the raw
amount into `whole = amount / divisor` and `fraction = amount % divisor`,
and renders `whole.fraction` with the fraction zero-padded to `decimals`
digits.  The three match arms (6, 18, other) of the source perform the
same padding with widths 6, 18 and `decimals`. -/
def format_amount (amount : Nat) (decimals : Nat) : String :=
  let divisor := 10 ^ decimals % U256_SIZE
  let whole := amount / divisor
  let fraction := amount % divisor
  if decimals = 6 then Nat.repr whole ++ "." ++ zeroPad 6 (Nat.repr fraction)
  else if decimals = 18 then Nat.repr whole ++ "." ++ zeroPad 18 (Nat.repr fraction)
  else Nat.repr whole ++ "." ++ zeroPad decimals (Nat.repr fraction)

/-! ### TokenAmount (src/block-monitor/src/domain/transaction.rs, lines 11-31) -/

/-- TokenAmount from the domain module: a raw U256 value plus the token
decimals. -/
structure TokenAmount where
  value : Nat
  decimals : Nat
deriving DecidableEq

/-- Model of `TokenAmount::to_human_readable`: the Rust code computes
`value as f64 / 10u64.pow(decimals) as f64`.  The binary64 quotient is
modelled as the exact fraction (numerator, denominator); this is faithful
whenever the operands and the quotient are exactly representable in
binary64, which holds at every input where the development evaluates it. -/
def TokenAmount.to_human_readable (a : TokenAmount) : Nat × Nat :=
  (a.value, 10 ^ a.decimals)

/-- Round the fraction `num / den` (with `den > 0`) to the nearest
integer, ties to even: the rounding used by the Rust float formatter for
exact halves. -/
def roundHalfEvenFrac (num den : Nat) : Nat :=
  let q := num / den
  let r := num % den
  if 2 * r < den then q
  else if den < 2 * r then q + 1
  else if q % 2 = 0 then q else q + 1

/-- Model of the Rust format specifier `{:.2}` applied to a nonnegative
float value modelled as the exact fraction `x`: round to two fractional
digits and render with exactly two digits after the dot. -/
def formatDot2 (x : Nat × Nat) : String :=
  let n := roundHalfEvenFrac (x.1 * 100) x.2
  Nat.repr (n / 100) ++ "." ++ zeroPad 2 (Nat.repr (n % 100))

/-- Model of `TokenAmount::format`: `format!("{:.2}", self.to_human_readable())`,
a rounded two-decimal display. -/
def TokenAmount.format (a : TokenAmount) : String :=
  formatDot2 a.to_human_readable

/-! ### Supporting lemmas about decimal strings -/

theorem mk_length (l : List Char) : (String.mk l).length = l.length := rfl

theorem zeroPad_length (w : Nat) (s : String) (h : s.length ≤ w) :
    (zeroPad w s).length = w := by
  simp only [zeroPad, String.length_append, mk_length, List.length_replicate]
  omega

theorem repr_length_le {n e : Nat} (he : 0 < e) (h : n < 10 ^ e) :
    (Nat.repr n).length ≤ e :=
  Nat.repr_length n e he h

theorem pow10_lt_U256 {d : Nat} (h : d ≤ 77) : 10 ^ d < U256_SIZE := by
  calc 10 ^ d ≤ 10 ^ 77 := Nat.pow_le_pow_right (by norm_num) h
    _ < U256_SIZE := by norm_num [U256_SIZE]

/-- C1 (amended): for every raw amount below 2 ^ 256 and decimals `d` with
1 ≤ d ≤ 77 (so that 10 ^ d exists in U256 and the fraction field is
nonempty), `format_amount` returns `whole.fraction` with
`whole = a / 10 ^ d`, `fraction = a % 10 ^ d` zero-padded to exactly `d`
digits, and `whole * 10 ^ d + fraction = a`; it performs exact integer
division, not a rounded two-decimal display.  (`TokenAmount::format`, by
contrast, is the rounded two-decimal display: see the counterexample.) -/
theorem C1_format_amount_exact (a d : Nat) (ha : a < U256_SIZE)
    (hd1 : 1 ≤ d) (hd77 : d ≤ 77) :
    format_amount a d =
      Nat.repr (a / 10 ^ d) ++ "." ++ zeroPad d (Nat.repr (a % 10 ^ d)) ∧
    (zeroPad d (Nat.repr (a % 10 ^ d))).length = d ∧
    (a / 10 ^ d) * 10 ^ d + a % 10 ^ d = a := by
  have hdiv : 10 ^ d % U256_SIZE = 10 ^ d :=
    Nat.mod_eq_of_lt (pow10_lt_U256 hd77)
  refine ⟨?_, ?_, ?_⟩
  · unfold format_amount
    rw [hdiv]
    split_ifs with h6 h18
    · subst h6; rfl
    · subst h18; rfl
    · rfl
  · refine zeroPad_length d _ (repr_length_le hd1 ?_)
    exact Nat.mod_lt _ (Nat.pos_pow_of_pos d (by norm_num))
  · rw [Nat.mul_comm]
    exact Nat.div_add_mod a (10 ^ d)

/-- C1 witness: the amended theorem applied at raw amount 1500000 with 6
decimals, every hypothesis discharged concretely; the rendered string is
"1.500000". -/
theorem C1_format_amount_exact_witness :
    (1500000 < U256_SIZE ∧ 1 ≤ 6 ∧ 6 ≤ 77) ∧
    (format_amount 1500000 6 =
      Nat.repr (1500000 / 10 ^ 6) ++ "." ++
        zeroPad 6 (Nat.repr (1500000 % 10 ^ 6)) ∧
    (zeroPad 6 (Nat.repr (1500000 % 10 ^ 6))).length = 6 ∧
    (1500000 / 10 ^ 6) * 10 ^ 6 + 1500000 % 10 ^ 6 = 1500000) ∧
    format_amount 1500000 6 = "1.500000" :=
  ⟨⟨by norm_num [U256_SIZE], by norm_num, by norm_num⟩,
   C1_format_amount_exact 1500000 6 (by norm_num [U256_SIZE])
     (by norm_num) (by norm_num),
   by decide⟩

/-- C1 counterexample: the also-cited amount formatter `TokenAmount::format`
maps raw 1500000 at 6 decimals to "1.50", a rounded two-decimal display
whose fraction has 2 digits, not the mandated "1.500000"; so the claim as
stated (covering every amount-formatting function, never producing a
rounded 2-decimal display) is false. -/
theorem C1_counterexample :
    TokenAmount.format ⟨1500000, 6⟩ = "1.50" ∧
    "1.50" ≠
      Nat.repr (1500000 / 10 ^ 6) ++ "." ++
        zeroPad 6 (Nat.repr (1500000 % 10 ^ 6)) := by
  constructor
  · decide
  · decide

/-! ### ChainTailPoller (src/block-monitor/src/monitor.rs)

`StablecoinMonitor::get_block_range` (lines 106-126) computes the catch-up
range from the cursor, the chain head and the batch size; u64 arithmetic
is modelled with explicit reduction modulo 2 ^ 64 (release-mode wrapping).
`StablecoinMonitor::process_new_blocks` (lines 88-101) walks the range and
sets `last_processed_block = Some(block_num)` only in the per-block `Ok`
arm; the `Err` arm logs, records the error metric and continues without
touching the cursor.  Metric updates are elided here since they do not
affect the cursor.  The per-block outcome of `process_single_block` is
abstracted as the oracle `outcome`. -/

/-- Configuration fields of the chain config used by the range logic. -/
structure MonitorConfig where
  start_block : Option Nat
  blocks_per_batch : Nat

/-- Monitor state: the processing cursor. -/
structure MonitorState where
  last_processed_block : Option Nat
deriving DecidableEq

/-- Start of the catch-up range: `last + 1` (wrapping u64 addition) when
the cursor is set, else the configured start block or the chain head. -/
def gbr_start (cfg : MonitorConfig) (st : MonitorState) (latest : Nat) : Nat :=
  match st.last_processed_block with
  | some last => (last + 1) % U64_SIZE
  | none => cfg.start_block.getD latest

/-- End of the catch-up range: `min(latest, start + blocks_per_batch - 1)`
with wrapping u64 arithmetic (adding `U64_SIZE - 1` is subtracting one
modulo 2 ^ 64). -/
def gbr_end (cfg : MonitorConfig) (st : MonitorState) (latest : Nat) : Nat :=
  min latest
    ((gbr_start cfg st latest + cfg.blocks_per_batch + (U64_SIZE - 1)) % U64_SIZE)

/-- Embedding of `StablecoinMonitor::get_block_range`: empty when the
start exceeds the head, else the inclusive range collected into a list. -/
def get_block_range (cfg : MonitorConfig) (st : MonitorState) (latest : Nat) :
    List Nat :=
  if latest < gbr_start cfg st latest then []
  else
    List.range' (gbr_start cfg st latest)
      (gbr_end cfg st latest + 1 - gbr_start cfg st latest)

/-- The cursor fold of `process_new_blocks`: walk the range, advancing the
cursor to each successfully processed block and leaving it unchanged on a
per-block failure. -/
def process_range (outcome : Nat → Bool) : Option Nat → List Nat → Option Nat
  | cursor, [] => cursor
  | cursor, b :: rest =>
      process_range outcome (if outcome b then some b else cursor) rest

/-- Embedding of `StablecoinMonitor::process_new_blocks` restricted to its
effect on the cursor. -/
def process_new_blocks (cfg : MonitorConfig) (st : MonitorState) (latest : Nat)
    (outcome : Nat → Bool) : MonitorState :=
  { last_processed_block :=
      process_range outcome st.last_processed_block (get_block_range cfg st latest) }

/-- A sequence of poller ticks, each with its observed chain head and its
per-block outcome oracle. -/
def run_ticks (cfg : MonitorConfig) :
    MonitorState → List (Nat × (Nat → Bool)) → MonitorState
  | st, [] => st
  | st, t :: rest => run_ticks cfg (process_new_blocks cfg st t.1 t.2) rest

/-- Order on optional cursors: an unset cursor precedes everything. -/
def cursor_le : Option Nat → Option Nat → Prop
  | none, _ => True
  | some _, none => False
  | some a, some b => a ≤ b

/-- The cursor, if set, sits strictly below the u64 wrap boundary. -/
def cursor_no_wrap (c : Option Nat) : Prop :=
  ∀ l, c = some l → l + 1 < U64_SIZE

/-- Every tick in the sequence reports a chain head strictly below the u64
wrap boundary. -/
def ticks_no_wrap (ticks : List (Nat × (Nat → Bool))) : Prop :=
  ∀ p ∈ ticks, p.1 + 1 < U64_SIZE

theorem cursor_le_refl (c : Option Nat) : cursor_le c c := by
  cases c <;> simp [cursor_le]

theorem cursor_le_trans {a b c : Option Nat}
    (h₁ : cursor_le a b) (h₂ : cursor_le b c) : cursor_le a c := by
  cases a <;> cases b <;> cases c <;> simp_all [cursor_le] <;> omega

theorem process_range_cases (outcome : Nat → Bool) (lst : List Nat)
    (cursor : Option Nat) :
    process_range outcome cursor lst = cursor ∨
      ∃ b ∈ lst, process_range outcome cursor lst = some b := by
  induction lst generalizing cursor with
  | nil => exact Or.inl rfl
  | cons b rest ih =>
    rcases ih (if outcome b then some b else cursor) with h | ⟨b', hb', h⟩
    · by_cases hob : outcome b = true
      · refine Or.inr ⟨b, List.mem_cons_self b rest, ?_⟩
        simpa [process_range, hob] using h
      · refine Or.inl ?_
        simp only [Bool.not_eq_true] at hob
        simpa [process_range, hob] using h
    · exact Or.inr ⟨b', List.mem_cons_of_mem b hb', by simpa [process_range] using h⟩

theorem process_range_getLast (outcome : Nat → Bool) :
    ∀ (lst : List Nat) (cursor : Option Nat) (h : lst ≠ []),
      outcome (lst.getLast h) = true →
      process_range outcome cursor lst = some (lst.getLast h)
  | [], _, h, _ => absurd rfl h
  | [b], cursor, _, hsucc => by
      simp only [List.getLast] at hsucc ⊢
      simp [process_range, hsucc]
  | b :: b' :: rest, cursor, _, hsucc => by
      rw [List.getLast_cons (by simp)] at hsucc ⊢
      simpa [process_range] using
        process_range_getLast outcome (b' :: rest)
          (if outcome b then some b else cursor) (by simp) hsucc

theorem process_range_all_fail (outcome : Nat → Bool) :
    ∀ (lst : List Nat) (cursor : Option Nat),
      (∀ b ∈ lst, outcome b = false) →
      process_range outcome cursor lst = cursor
  | [], _, _ => rfl
  | b :: rest, cursor, h => by
      have hb : outcome b = false := h b (List.mem_cons_self b rest)
      simpa [process_range, hb] using
        process_range_all_fail outcome rest cursor
          (fun x hx => h x (List.mem_cons_of_mem b hx))

theorem get_block_range_le (cfg : MonitorConfig) (st : MonitorState)
    (latest : Nat) : ∀ b ∈ get_block_range cfg st latest, b ≤ latest := by
  intro b hb
  unfold get_block_range at hb
  split at hb
  · simp at hb
  · rw [List.mem_range'_1] at hb
    have hend : gbr_end cfg st latest ≤ latest := Nat.min_le_left _ _
    omega

theorem get_block_range_gt_last (cfg : MonitorConfig) (st : MonitorState)
    (latest l : Nat) (hl : st.last_processed_block = some l)
    (hno : l + 1 < U64_SIZE) :
    ∀ b ∈ get_block_range cfg st latest, l < b := by
  intro b hb
  have hstart : gbr_start cfg st latest = l + 1 := by
    unfold gbr_start
    rw [hl]
    exact Nat.mod_eq_of_lt hno
  unfold get_block_range at hb
  split at hb
  · simp at hb
  · rw [List.mem_range'_1, hstart] at hb
    omega

theorem tick_cursor_mono (cfg : MonitorConfig) (st : MonitorState)
    (latest : Nat) (outcome : Nat → Bool)
    (h : cursor_no_wrap st.last_processed_block) :
    cursor_le st.last_processed_block
      (process_new_blocks cfg st latest outcome).last_processed_block := by
  rcases hc : st.last_processed_block with _ | l
  · simp [cursor_le]
  · show cursor_le (some l)
      (process_range outcome st.last_processed_block (get_block_range cfg st latest))
    rw [hc]
    rcases process_range_cases outcome (get_block_range cfg st latest) (some l) with
      heq | ⟨b, hb, heq⟩
    · rw [heq]; exact Nat.le_refl l
    · rw [heq]
      exact Nat.le_of_lt (get_block_range_gt_last cfg st latest l hc (h l hc) b hb)

theorem tick_cursor_no_wrap (cfg : MonitorConfig) (st : MonitorState)
    (latest : Nat) (outcome : Nat → Bool)
    (h : cursor_no_wrap st.last_processed_block)
    (hlatest : latest + 1 < U64_SIZE) :
    cursor_no_wrap (process_new_blocks cfg st latest outcome).last_processed_block := by
  intro l hl
  have hl' : process_range outcome st.last_processed_block
      (get_block_range cfg st latest) = some l := hl
  rcases process_range_cases outcome (get_block_range cfg st latest)
      st.last_processed_block with heq | ⟨b, hb, heq⟩
  · exact h l (heq ▸ hl')
  · rw [heq] at hl'
    have hb' : b = l := by injection hl'
    have := get_block_range_le cfg st latest b hb
    omega

/-- C2 (amended): over any sequence of poller ticks whose cursor and chain
heads stay below the u64 wrap boundary, `lastProcessedBlock` is
non-decreasing; after one catch-up batch the cursor equals the last block
of the computed range whenever that final block was processed
successfully, and is unchanged when every block in the range fails.  (The
claim as stated — cursor equals the range end regardless of per-block
outcomes — is refuted by the counterexample: the cursor is only advanced
in the per-block success arm.) -/
theorem C2_cursor_monotone (cfg : MonitorConfig) (st : MonitorState)
    (ticks : List (Nat × (Nat → Bool)))
    (hst : cursor_no_wrap st.last_processed_block)
    (hticks : ticks_no_wrap ticks) :
    cursor_le st.last_processed_block (run_ticks cfg st ticks).last_processed_block ∧
    (∀ (latest : Nat) (outcome : Nat → Bool)
        (hr : get_block_range cfg st latest ≠ []),
      outcome ((get_block_range cfg st latest).getLast hr) = true →
      (process_new_blocks cfg st latest outcome).last_processed_block =
        some ((get_block_range cfg st latest).getLast hr)) ∧
    (∀ (latest : Nat) (outcome : Nat → Bool),
      (∀ b, outcome b = false) →
      (process_new_blocks cfg st latest outcome).last_processed_block =
        st.last_processed_block) := by
  refine ⟨?_, ?_, ?_⟩
  · induction ticks generalizing st with
    | nil => exact cursor_le_refl _
    | cons t rest ih =>
      have ht : t.1 + 1 < U64_SIZE := hticks t (List.mem_cons_self t rest)
      refine cursor_le_trans (tick_cursor_mono cfg st t.1 t.2 hst) ?_
      exact ih (process_new_blocks cfg st t.1 t.2)
        (tick_cursor_no_wrap cfg st t.1 t.2 hst ht)
        (fun p hp => hticks p (List.mem_cons_of_mem t hp))
  · intro latest outcome hr hsucc
    exact process_range_getLast outcome (get_block_range cfg st latest)
      st.last_processed_block hr hsucc
  · intro latest outcome hfail
    exact process_range_all_fail outcome (get_block_range cfg st latest)
      st.last_processed_block (fun b _ => hfail b)

/-- C2 witness: the amended theorem applied with cursor 995, one tick at
chain head 1000 with every block succeeding; the spec example range is
[996, 1000] and the cursor lands on 1000. -/
theorem C2_cursor_monotone_witness :
    cursor_no_wrap (some 995) ∧ ticks_no_wrap [] ∧
    get_block_range ⟨none, 5⟩ ⟨some 995⟩ 1000 = [996, 997, 998, 999, 1000] ∧
    (process_new_blocks ⟨none, 5⟩ ⟨some 995⟩ 1000 (fun _ => true)).last_processed_block
      = some 1000 := by
  have hst : cursor_no_wrap (some 995) := by
    intro l hl
    cases hl
    norm_num [U64_SIZE]
  have hticks : ticks_no_wrap ([] : List (Nat × (Nat → Bool))) := by
    intro p hp
    simp at hp
  refine ⟨hst, hticks, by decide, ?_⟩
  have h := (C2_cursor_monotone ⟨none, 5⟩ ⟨some 995⟩ [] hst hticks).2.1
    1000 (fun _ => true) (by decide) rfl
  rw [h]
  decide

/-- C2 counterexample: cursor 995, chain head 996, so the catch-up range
is [996, 996]; the single per-block fetch fails, the poller finishes the
range, and `lastProcessedBlock` is still 995, not the range end 996 —
refuting "lastProcessedBlock equals e regardless of whether individual
per-block log fetches succeeded or failed". -/
theorem C2_counterexample :
    get_block_range ⟨none, 5⟩ ⟨some 995⟩ 996 = [996] ∧
    (process_new_blocks ⟨none, 5⟩ ⟨some 995⟩ 996 (fun _ => false)).last_processed_block
      = some 995 ∧
    some 995 ≠ (some 996 : Option Nat) := by
  refine ⟨by decide, by decide, by decide⟩

/-! ### EventDecoder (src/block-monitor/src/services/blockchain.rs, lines 85-135)

`BlockchainService::parse_transfer_log` decodes one log.  Addresses,
topics and payloads are byte lists; the token registry is the address-to-
token mapping built from the configuration.  The Transfer signature hash
is the precomputed keccak256 of "Transfer(address,address,uint256)",
whose byte value is spelled out in src/block-monitor/src/blockchain.rs
(lines 13-16); services/blockchain.rs computes the same hash at startup. -/

/-- Token metadata from the registry. -/
structure Token where
  symbol : String
  address : Nat
  decimals : Nat
deriving DecidableEq

/-- An EVM log as consumed by the decoder: emitting contract address,
topic list (32-byte words), payload bytes, and the optional transaction
hash and block number attached by the RPC provider. -/
structure Log where
  address : Nat
  topics : List (List Nat)
  data : List Nat
  transaction_hash : Option (List Nat)
  block_number : Option Nat
deriving DecidableEq

/-- Keccak256 of "Transfer(address,address,uint256)" as 32 bytes (the
source spells the bytes in hexadecimal; decimal here). -/
def TRANSFER_EVENT_SIGNATURE : List Nat :=
  [221, 242, 82, 173, 27, 226, 200, 155,
   105, 194, 176, 104, 252, 55, 141, 170,
   149, 43, 167, 241, 99, 196, 161, 22,
   40, 245, 90, 77, 245, 35, 179, 239]

/-- Big-endian byte interpretation, as in `U256::from_be_slice`. -/
def beBytesToNat (bs : List Nat) : Nat :=
  bs.foldl (fun acc b => acc * 256 + b) 0

/-- Decoded transfer (domain `Transaction`): token, amount, addresses,
block number, transaction hash and the optional timestamp. -/
structure Transaction where
  token : Token
  amount : TokenAmount
  fromAddr : List Nat
  toAddr : List Nat
  block_number : Nat
  tx_hash : List Nat
  timestamp : Option Nat
deriving DecidableEq

/-- Embedding of `Transaction::new`: wraps the raw value with the token
decimals and leaves the timestamp unset. -/
def Transaction.new (token : Token) (value : Nat) (fromAddr toAddr : List Nat)
    (block_number : Nat) (tx_hash : List Nat) : Transaction :=
  ⟨token, ⟨value, token.decimals⟩, fromAddr, toAddr, block_number, tx_hash, none⟩

/-- Embedding of `BlockchainService::parse_transfer_log`.  The Rust
function returns `Result<Option<Transaction>>`: `Ok(None)` for an
unmonitored address, fewer than 3 topics or a non-matching first topic;
`Err(..)` for a payload shorter than 32 bytes or a log missing its
transaction hash or block number; `Ok(Some(..))` otherwise. -/
def parse_transfer_log (registry : List (Nat × Token)) (log : Log) :
    Except String (Option Transaction) :=
  match List.lookup log.address registry with
  | none => Except.ok none
  | some token =>
    if log.topics.length < 3 then Except.ok none
    else if log.topics.getD 0 [] ≠ TRANSFER_EVENT_SIGNATURE then Except.ok none
    else
      let fromAddr := (log.topics.getD 1 []).drop 12
      let toAddr := (log.topics.getD 2 []).drop 12
      if 32 ≤ log.data.length then
        let value := beBytesToNat (log.data.take 32)
        match log.transaction_hash with
        | none => Except.error "Missing transaction hash"
        | some tx_hash =>
          match log.block_number with
          | none => Except.error "Missing block number"
          | some bn =>
            Except.ok (some (Transaction.new token value fromAddr toAddr bn tx_hash))
      else Except.error "Invalid data length for Transfer event"

/-- C3 (amended): the decoder answers "not a transfer" (`Ok(None)`),
without raising, for an unmonitored emitting address, for fewer than 3
topics, and for a non-matching first topic; but for a monitored, matching
log whose payload is shorter than 32 bytes it returns an error rather
than `Ok(None)` — the claim that every structural-check failure yields a
non-error "not a transfer" is refuted by the counterexample. -/
theorem C3_parse_transfer_log_checks (registry : List (Nat × Token)) (log : Log) :
    (List.lookup log.address registry = none →
      parse_transfer_log registry log = Except.ok none) ∧
    (log.topics.length < 3 →
      parse_transfer_log registry log = Except.ok none) ∧
    (log.topics.getD 0 [] ≠ TRANSFER_EVENT_SIGNATURE →
      parse_transfer_log registry log = Except.ok none) ∧
    (∀ token, List.lookup log.address registry = some token →
      3 ≤ log.topics.length →
      log.topics.getD 0 [] = TRANSFER_EVENT_SIGNATURE →
      log.data.length < 32 →
      parse_transfer_log registry log =
        Except.error "Invalid data length for Transfer event") := by
  refine ⟨?_, ?_, ?_, ?_⟩
  · intro h
    simp [parse_transfer_log, h]
  · intro h
    unfold parse_transfer_log
    cases List.lookup log.address registry with
    | none => rfl
    | some token => simp [h]
  · intro h
    cases hL : List.lookup log.address registry with
    | none => simp [parse_transfer_log, hL]
    | some token =>
      by_cases h3 : log.topics.length < 3
      · simp [parse_transfer_log, hL, h3]
      · simp only [parse_transfer_log, hL]
        rw [if_neg h3, if_pos h]
  · intro token hL h3 hsig hdata
    have h3' : ¬ log.topics.length < 3 := Nat.not_lt.mpr h3
    have hdata' : ¬ 32 ≤ log.data.length := Nat.not_le.mpr hdata
    simp only [parse_transfer_log, hL, if_neg h3',
      if_neg (not_not_intro hsig), if_neg hdata']

/-- C3 witness: the amended theorem applied to a log with two topics from
a monitored address; the decoder yields `Ok(None)`. -/
theorem C3_parse_transfer_log_checks_witness :
    (Log.mk 5 [TRANSFER_EVENT_SIGNATURE, [1]] [] none none).topics.length < 3 ∧
    parse_transfer_log [(5, ⟨"USDC", 5, 6⟩)]
      (Log.mk 5 [TRANSFER_EVENT_SIGNATURE, [1]] [] none none) = Except.ok none :=
  ⟨by decide,
   (C3_parse_transfer_log_checks [(5, ⟨"USDC", 5, 6⟩)]
       (Log.mk 5 [TRANSFER_EVENT_SIGNATURE, [1]] [] none none)).2.1 (by decide)⟩

/-- C3 counterexample: a log from the monitored USDC contract with three
topics, a matching Transfer topic0 and an empty payload (fewer than 32
bytes of data) makes the decoder return an error, not the non-error
"not a transfer" the claim requires for every failed structural check. -/
theorem C3_counterexample :
    parse_transfer_log
      [(0x833589fCD6eDb6E08f4c7C32D4f71b54bdA02913,
        ⟨"USDC", 0x833589fCD6eDb6E08f4c7C32D4f71b54bdA02913, 6⟩)]
      (Log.mk 0x833589fCD6eDb6E08f4c7C32D4f71b54bdA02913
        [TRANSFER_EVENT_SIGNATURE, List.replicate 32 0, List.replicate 32 0]
        [] (some (List.replicate 32 0)) (some 1)) =
      Except.error "Invalid data length for Transfer event" ∧
    ∀ h : Except.error "Invalid data length for Transfer event" =
        (Except.ok none : Except String (Option Transaction)), False := by
  refine ⟨by rfl, fun h => by simp at h⟩

/-! ### MultiSinkPublisher (src/block-monitor/src/services/publisher.rs, lines 13-35)

`CompositePublisher::publish_all` walks the ordered sink list; a failed
`publish` is caught and logged together with `publisher.name()`, and the
loop continues.  The observable effect of each invocation is recorded as
an event: `published name` for a successful sink, `logged name err` for
the warn line of a failed sink. -/

/-- Observable outcome of one sink invocation. -/
inductive PubEvent where
  | published (sinkName : String)
  | logged (sinkName : String) (err : String)
deriving DecidableEq

/-- One publisher behind the `Publisher` trait: a name plus its fallible
publish behaviour for a given transfer. -/
structure Sink where
  name : String
  publish : Transaction → Except String Unit

/-- Embedding of `CompositePublisher::publish_all`: invoke every sink in
order, catching and logging failures; the function itself is total and
never raises. -/
def publish_all : List Sink → Transaction → List PubEvent
  | [], _ => []
  | s :: rest, tx =>
    (match s.publish tx with
     | Except.ok _ => PubEvent.published s.name
     | Except.error e => PubEvent.logged s.name e) :: publish_all rest tx

/-- C6: `publish_all` invokes every sink exactly once, in order: the
event list is the pointwise image of the sink list, so one sink produces
one event determined only by its own outcome — a failure is logged with
that sink's name and neither prevents later sinks from running nor
revokes the events of earlier sinks — and splitting the sink list
anywhere splits the event list accordingly. -/
theorem C6_publish_all_isolation (sinks : List Sink) (tx : Transaction) :
    publish_all sinks tx = sinks.map (fun s =>
      match s.publish tx with
      | Except.ok _ => PubEvent.published s.name
      | Except.error e => PubEvent.logged s.name e) ∧
    (publish_all sinks tx).length = sinks.length ∧
    ∀ pre post : List Sink,
      publish_all (pre ++ post) tx = publish_all pre tx ++ publish_all post tx := by
  have hmap : ∀ l : List Sink, publish_all l tx = l.map (fun s =>
      match s.publish tx with
      | Except.ok _ => PubEvent.published s.name
      | Except.error e => PubEvent.logged s.name e) := by
    intro l
    induction l with
    | nil => rfl
    | cons s rest ih => simp [publish_all, ih]
  refine ⟨hmap sinks, by rw [hmap sinks]; simp, ?_⟩
  intro pre post
  rw [hmap (pre ++ post), hmap pre, hmap post, List.map_append]

/-! ### DurableStreamConsumer ack ordering
(src/game-server/src/message/processor.rs, lines 131-161)

`MessageProcessor::process_batch` iterates the batch; for each message it
runs the delivery step (`process_single_message`, which broadcasts) and
acknowledges the message only in the `Ok` arm, counting it as processed;
in the `Err` arm it records the failure and moves on without
acknowledging.  The delivery outcome is abstracted as the oracle
`deliver`; the trace records delivery attempts and ack calls in order. -/

/-- Observable consumer actions, in order. -/
inductive ConsumerEvent where
  | deliver (id : String) (ok : Bool)
  | ack (id : String)
deriving DecidableEq

/-- Embedding of `MessageProcessor::process_batch`: the event trace plus
the processed count. -/
def process_batch (deliver : String → Bool) : List String → List ConsumerEvent × Nat
  | [] => ([], 0)
  | id :: rest =>
    let r := process_batch deliver rest
    if deliver id then
      (ConsumerEvent.deliver id true :: ConsumerEvent.ack id :: r.1, r.2 + 1)
    else
      (ConsumerEvent.deliver id false :: r.1, r.2)

/-- C4: an entry is acknowledged only if it occurs in the batch and its
delivery step succeeded; when it is acknowledged, the ack call appears in
the trace immediately after the successful delivery of that entry; and
when the delivery step fails, no acknowledgment call for that entry
occurs at all. -/
theorem C4_ack_only_after_delivery (deliver : String → Bool)
    (msgs : List String) (id : String) :
    (ConsumerEvent.ack id ∈ (process_batch deliver msgs).1 →
      deliver id = true ∧ id ∈ msgs) ∧
    (deliver id = true → id ∈ msgs →
      ∃ pre post, (process_batch deliver msgs).1 =
        pre ++ ConsumerEvent.deliver id true :: ConsumerEvent.ack id :: post) ∧
    (deliver id = false → ConsumerEvent.ack id ∉ (process_batch deliver msgs).1) := by
  refine ⟨?_, ?_, ?_⟩
  · induction msgs with
    | nil => intro h; simp [process_batch] at h
    | cons m rest ih =>
      intro h
      by_cases hd : deliver m = true
      · simp only [process_batch, hd, if_true, List.mem_cons] at h
        rcases h with h | h | h
        · exact absurd h (by simp)
        · have : id = m := by
            injection h
          subst this
          exact ⟨hd, List.mem_cons_self id rest⟩
        · rcases ih h with ⟨h1, h2⟩
          exact ⟨h1, List.mem_cons_of_mem m h2⟩
      · simp only [Bool.not_eq_true] at hd
        simp only [process_batch, hd, Bool.false_eq_true, if_false, List.mem_cons] at h
        rcases h with h | h
        · exact absurd h (by simp)
        · rcases ih h with ⟨h1, h2⟩
          exact ⟨h1, List.mem_cons_of_mem m h2⟩
  · induction msgs with
    | nil => intro _ hm; simp at hm
    | cons m rest ih =>
      intro hd hm
      by_cases hid : id = m
      · subst hid
        refine ⟨[], (process_batch deliver rest).1, ?_⟩
        simp [process_batch, hd]
      · have hm' : id ∈ rest := by
          rcases List.mem_cons.mp hm with h | h
          · exact absurd h hid
          · exact h
        rcases ih hd hm' with ⟨pre, post, hsplit⟩
        by_cases hdm : deliver m = true
        · refine ⟨ConsumerEvent.deliver m true :: ConsumerEvent.ack m :: pre, post, ?_⟩
          simp [process_batch, hdm, hsplit]
        · simp only [Bool.not_eq_true] at hdm
          refine ⟨ConsumerEvent.deliver m false :: pre, post, ?_⟩
          simp [process_batch, hdm, hsplit]
  · induction msgs with
    | nil => intro _ h; simp [process_batch] at h
    | cons m rest ih =>
      intro hd h
      by_cases hdm : deliver m = true
      · simp only [process_batch, hdm, if_true, List.mem_cons] at h
        rcases h with h | h | h
        · exact absurd h (by simp)
        · have him : id = m := by injection h
          rw [him] at hd
          rw [hdm] at hd
          exact Bool.noConfusion hd
        · exact ih hd h
      · simp only [Bool.not_eq_true] at hdm
        simp only [process_batch, hdm, Bool.false_eq_true, if_false, List.mem_cons] at h
        rcases h with h | h
        · exact absurd h (by simp)
        · exact ih hd h

/-- C4 witness: with a batch of two entries where delivery succeeds for
the first and fails for the second, the theorem gives that no
acknowledgment call occurs for the failed entry. -/
theorem C4_ack_only_after_delivery_witness :
    (fun s => s == "m1") "m2" = false ∧
    ConsumerEvent.ack "m2" ∉
      (process_batch (fun s => s == "m1") ["m1", "m2"]).1 :=
  ⟨by decide,
   (C4_ack_only_after_delivery (fun s => s == "m1") ["m1", "m2"] "m2").2.2
     (by decide)⟩

/-! ### ConnectionFanout (src/game-server/src/websocket/client_manager.rs)

A registered client holds an unbounded mpsc sender
(`Client.sender : mpsc::UnboundedSender<Message>`, lines 12-20); the send
channel is modelled by whether the receiving side is still alive plus the
queue of enqueued messages.  `ClientManager::broadcast` (lines 90-118)
iterates all clients under the read lock, counts successes, collects the
ids of failed sends, then — after the full iteration — drops the lock and
removes each failed client. -/

/-- Registry entry for one connection; the channel is modelled by
`senderOpen` (receiver alive) and `queue` (enqueued messages). -/
structure Client where
  id : String
  senderOpen : Bool
  queue : List String
deriving DecidableEq

/-- Model of `sender.send(msg)` on an unbounded channel: enqueue and
succeed while the receiver is alive, otherwise fail without change. -/
def try_send (c : Client) (m : String) : Client × Bool :=
  if c.senderOpen then ({ c with queue := c.queue ++ [m] }, true) else (c, false)

/-- The iteration phase of `broadcast`: updated clients, success count,
and failed ids in iteration order. -/
def broadcast_scan (m : String) : List Client → List Client × Nat × List String
  | [] => ([], 0, [])
  | c :: rest =>
    let s := try_send c m
    let r := broadcast_scan m rest
    (s.1 :: r.1,
     (if s.2 then r.2.1 + 1 else r.2.1),
     (if s.2 then r.2.2 else c.id :: r.2.2))

/-- Embedding of `ClientManager::remove_client`: drop the entry with the
given id (idempotent). -/
def remove_client (clients : List Client) (cid : String) : List Client :=
  clients.filter (fun c => c.id != cid)

/-- Embedding of `ClientManager::broadcast`: scan all clients, then
remove each failed client after the iteration; returns the final
registry, the success count and the failed ids. -/
def broadcast (clients : List Client) (m : String) :
    List Client × Nat × List String :=
  let scan := broadcast_scan m clients
  (scan.2.2.foldl remove_client scan.1, scan.2.1, scan.2.2)

theorem try_send_id (c : Client) (m : String) : (try_send c m).1.id = c.id := by
  unfold try_send
  by_cases h : c.senderOpen = true <;> simp [h]

theorem broadcast_scan_eq (m : String) (l : List Client) :
    broadcast_scan m l =
      (l.map (fun c => (try_send c m).1),
       (l.filter (fun c => c.senderOpen)).length,
       (l.filter (fun c => !c.senderOpen)).map Client.id) := by
  induction l with
  | nil => rfl
  | cons c rest ih =>
    by_cases h : c.senderOpen = true
    · simp [broadcast_scan, ih, try_send, h]
    · simp only [Bool.not_eq_true] at h
      simp [broadcast_scan, ih, try_send, h]

theorem foldl_remove_client (ids : List String) (l : List Client) :
    ids.foldl remove_client l = l.filter (fun c => !ids.contains c.id) := by
  induction ids generalizing l with
  | nil => simp
  | cons i ids ih =>
    show ids.foldl remove_client (remove_client l i) = _
    rw [ih (remove_client l i)]
    unfold remove_client
    rw [List.filter_filter]
    apply List.filter_congr
    intro c _
    by_cases hc : c.id = i
    · simp [hc]
    · simp [hc, Bool.and_comm]

theorem filter_map_comm (f : Client → Client) (p : Client → Bool)
    (l : List Client) :
    (l.map f).filter p = (l.filter (fun c => p (f c))).map f := by
  induction l with
  | nil => rfl
  | cons c rest ih =>
    by_cases h : p (f c) = true
    · simp [h, ih]
    · simp only [Bool.not_eq_true] at h
      simp [h, ih]

theorem filter_not_filter_length (p : Client → Bool) (l : List Client) :
    (l.filter p).length + (l.filter (fun c => !p c)).length = l.length := by
  induction l with
  | nil => rfl
  | cons c rest ih =>
    by_cases h : p c = true
    · simp [h, ih, Nat.succ_add]
    · simp only [Bool.not_eq_true] at h
      simp [h, ih]
      omega

/-- C5: `broadcast` visits every registered client, enqueues the message
on each open channel, counts the successes, collects the ids of the
clients whose channel is closed (successes plus failures cover every
client), and only after the full scan removes exactly the failed
clients: the resulting registry is the open clients, each with the
message enqueued. -/
theorem C5_broadcast_resilience (clients : List Client) (m : String)
    (hnodup : (clients.map Client.id).Nodup) :
    (broadcast clients m).2.1 = (clients.filter (fun c => c.senderOpen)).length ∧
    (broadcast clients m).2.2 =
      (clients.filter (fun c => !c.senderOpen)).map Client.id ∧
    (broadcast clients m).2.1 + (broadcast clients m).2.2.length = clients.length ∧
    (broadcast clients m).1 =
      (clients.filter (fun c => c.senderOpen)).map
        (fun c => { c with queue := c.queue ++ [m] }) := by
  have hscan := broadcast_scan_eq m clients
  have hsucc : (broadcast clients m).2.1 =
      (clients.filter (fun c => c.senderOpen)).length := by
    simp [broadcast, hscan]
  have hfail : (broadcast clients m).2.2 =
      (clients.filter (fun c => !c.senderOpen)).map Client.id := by
    simp [broadcast, hscan]
  have h1 : (broadcast_scan m clients).1 =
      clients.map (fun c => (try_send c m).1) := by rw [hscan]
  have h2 : (broadcast_scan m clients).2.2 =
      (clients.filter (fun c => !c.senderOpen)).map Client.id := by rw [hscan]
  have hpt : ∀ c ∈ clients,
      (!((clients.filter (fun c => !c.senderOpen)).map Client.id).contains
        ((try_send c m).1).id) = c.senderOpen := by
    intro c hc
    rw [try_send_id]
    by_cases hopen : c.senderOpen = true
    · rw [hopen]
      simp only [Bool.not_eq_true']
      rw [List.contains_eq_any_beq]
      simp only [List.any_eq_false]
      intro x hx
      rcases List.mem_map.mp hx with ⟨d, hd, hdx⟩
      rcases List.mem_filter.mp hd with ⟨hdmem, hdclosed⟩
      intro hbeq
      have hideq : c.id = x := by
        simpa using hbeq
      have hcd : c = d := by
        apply List.inj_on_of_nodup_map hnodup hc hdmem
        rw [hideq, hdx]
      rw [hcd] at hopen
      simp [hopen] at hdclosed
    · simp only [Bool.not_eq_true] at hopen
      rw [hopen]
      simp only [Bool.not_eq_false']
      rw [List.contains_eq_any_beq]
      simp only [List.any_eq_true]
      refine ⟨c.id,
        List.mem_map.mpr ⟨c, List.mem_filter.mpr ⟨hc, by simp [hopen]⟩, rfl⟩, ?_⟩
      simp
  refine ⟨hsucc, hfail, ?_, ?_⟩
  · rw [hsucc, hfail, List.length_map]
    exact filter_not_filter_length _ clients
  · show ((broadcast_scan m clients).2.2.foldl remove_client
      (broadcast_scan m clients).1) = _
    rw [h1, h2, foldl_remove_client]
    calc (clients.map (fun c => (try_send c m).1)).filter
          (fun c => !((clients.filter (fun c => !c.senderOpen)).map
            Client.id).contains c.id)
        = (clients.filter (fun c =>
            !((clients.filter (fun c => !c.senderOpen)).map
              Client.id).contains ((try_send c m).1).id)).map
            (fun c => (try_send c m).1) :=
          filter_map_comm _ _ clients
      _ = (clients.filter (fun c => c.senderOpen)).map
            (fun c => (try_send c m).1) := by
          rw [List.filter_congr hpt]
      _ = (clients.filter (fun c => c.senderOpen)).map
            (fun c => { c with queue := c.queue ++ [m] }) := by
          apply List.map_congr_left
          intro c hc
          have hopen := (List.mem_filter.mp hc).2
          simp [try_send, hopen]

/-- C5 witness: five registered clients, two with closed channels; the
theorem reports 3 successes, the 2 failed ids, 3 + 2 = 5 attempts, and a
final registry of exactly the 3 open clients with the message enqueued. -/
theorem C5_broadcast_resilience_witness :
    (([⟨"c1", true, []⟩, ⟨"c2", false, []⟩, ⟨"c3", true, []⟩,
       ⟨"c4", false, []⟩, ⟨"c5", true, []⟩] : List Client).map Client.id).Nodup ∧
    ((broadcast [⟨"c1", true, []⟩, ⟨"c2", false, []⟩, ⟨"c3", true, []⟩,
        ⟨"c4", false, []⟩, ⟨"c5", true, []⟩] "tx").2.1 =
      (([⟨"c1", true, []⟩, ⟨"c2", false, []⟩, ⟨"c3", true, []⟩,
         ⟨"c4", false, []⟩, ⟨"c5", true, []⟩] : List Client).filter
        (fun c => c.senderOpen)).length ∧
     (broadcast [⟨"c1", true, []⟩, ⟨"c2", false, []⟩, ⟨"c3", true, []⟩,
        ⟨"c4", false, []⟩, ⟨"c5", true, []⟩] "tx").2.2 =
      (([⟨"c1", true, []⟩, ⟨"c2", false, []⟩, ⟨"c3", true, []⟩,
         ⟨"c4", false, []⟩, ⟨"c5", true, []⟩] : List Client).filter
        (fun c => !c.senderOpen)).map Client.id ∧
     (broadcast [⟨"c1", true, []⟩, ⟨"c2", false, []⟩, ⟨"c3", true, []⟩,
        ⟨"c4", false, []⟩, ⟨"c5", true, []⟩] "tx").2.1 +
       (broadcast [⟨"c1", true, []⟩, ⟨"c2", false, []⟩, ⟨"c3", true, []⟩,
         ⟨"c4", false, []⟩, ⟨"c5", true, []⟩] "tx").2.2.length = 5 ∧
     (broadcast [⟨"c1", true, []⟩, ⟨"c2", false, []⟩, ⟨"c3", true, []⟩,
        ⟨"c4", false, []⟩, ⟨"c5", true, []⟩] "tx").1 =
      (([⟨"c1", true, []⟩, ⟨"c2", false, []⟩, ⟨"c3", true, []⟩,
         ⟨"c4", false, []⟩, ⟨"c5", true, []⟩] : List Client).filter
        (fun c => c.senderOpen)).map
          (fun c => { c with queue := c.queue ++ ["tx"] })) ∧
    (broadcast [⟨"c1", true, []⟩, ⟨"c2", false, []⟩, ⟨"c3", true, []⟩,
       ⟨"c4", false, []⟩, ⟨"c5", true, []⟩] "tx").2.1 = 3 ∧
    (broadcast [⟨"c1", true, []⟩, ⟨"c2", false, []⟩, ⟨"c3", true, []⟩,
       ⟨"c4", false, []⟩, ⟨"c5", true, []⟩] "tx").2.2.length = 2 ∧
    (broadcast [⟨"c1", true, []⟩, ⟨"c2", false, []⟩, ⟨"c3", true, []⟩,
       ⟨"c4", false, []⟩, ⟨"c5", true, []⟩] "tx").1.length = 3 :=
  ⟨by decide,
   C5_broadcast_resilience
     [⟨"c1", true, []⟩, ⟨"c2", false, []⟩, ⟨"c3", true, []⟩,
      ⟨"c4", false, []⟩, ⟨"c5", true, []⟩] "tx" (by decide),
   by decide, by decide, by decide⟩

/-! ### add_client replacement semantics
(src/game-server/src/websocket/client_manager.rs, lines 56-72)

`ClientManager::add_client` builds the new `Client` and calls
`clients.insert(id, client)` on the HashMap: an existing registration
under the same id is replaced, not duplicated.  The HashMap is modelled
as an association list with unique keys; insert replaces in place when
the key is present and appends otherwise. -/

/-- HashMap insert on an association list: replace the entry when the key
is present, append otherwise. -/
def hm_insert (m : List (String × Client)) (k : String) (v : Client) :
    List (String × Client) :=
  if m.any (fun p => p.1 == k) then
    m.map (fun p => if p.1 == k then (k, v) else p)
  else m ++ [(k, v)]

/-- Embedding of `ClientManager::add_client`: insert the freshly built
client under its id. -/
def add_client (clients : List (String × Client)) (cid : String)
    (newClient : Client) : List (String × Client) :=
  hm_insert clients cid newClient

/-- C10: when the id is already registered (keys unique, as in a
HashMap), `add_client` replaces the existing registration: afterwards the
registry holds exactly one entry for that id, carrying the new client
value, and the total client count is unchanged. -/
theorem filter_key_singleton (clients : List (String × Client)) (cid : String)
    (hmem : clients.any (fun p => p.1 == cid) = true)
    (hnodup : (clients.map Prod.fst).Nodup) :
    ∃ e ∈ clients, e.1 = cid ∧
      clients.filter (fun p => p.1 == cid) = [e] := by
  induction clients with
  | nil => simp at hmem
  | cons p rest ih =>
    have hnodup' : (rest.map Prod.fst).Nodup := (List.nodup_cons.mp hnodup).2
    by_cases hp : p.1 = cid
    · refine ⟨p, List.mem_cons_self p rest, hp, ?_⟩
      have hrest : rest.filter (fun q => q.1 == cid) = [] := by
        rw [List.filter_eq_nil_iff]
        intro q hq
        have hnotin : p.1 ∉ rest.map Prod.fst := (List.nodup_cons.mp hnodup).1
        have hne : q.1 ≠ cid := by
          intro hq1
          exact hnotin (by
            rw [hp, ← hq1]
            exact List.mem_map.mpr ⟨q, hq, rfl⟩)
        simp [hne]
      rw [List.filter_cons_of_pos (by simp [hp]), hrest]
    · have hmem' : rest.any (fun p => p.1 == cid) = true := by
        rcases List.any_eq_true.mp hmem with ⟨q, hq, hqe⟩
        rcases List.mem_cons.mp hq with rfl | hq'
        · exact absurd (by simpa using hqe) hp
        · exact List.any_eq_true.mpr ⟨q, hq', hqe⟩
      rcases ih hmem' hnodup' with ⟨e, he, he1, hfil⟩
      refine ⟨e, List.mem_cons_of_mem p he, he1, ?_⟩
      rw [List.filter_cons_of_neg (by simp [hp]), hfil]

/-- C10: when the id is already registered (keys unique, as in a
HashMap), `add_client` replaces the existing registration: afterwards the
registry holds exactly one entry for that id, carrying the new client
value, and the total client count is unchanged rather than incremented. -/
theorem C10_add_client_replaces (clients : List (String × Client))
    (cid : String) (c : Client)
    (hmem : clients.any (fun p => p.1 == cid) = true)
    (hnodup : (clients.map Prod.fst).Nodup) :
    (add_client clients cid c).filter (fun p => p.1 == cid) = [(cid, c)] ∧
    (add_client clients cid c).length = clients.length := by
  have hins : add_client clients cid c =
      clients.map (fun p => if p.1 == cid then (cid, c) else p) := by
    unfold add_client hm_insert
    rw [if_pos hmem]
  constructor
  · rw [hins, List.filter_map]
    have hpt : ∀ p ∈ clients,
        ((fun q => q.1 == cid) ∘ fun p => if p.1 == cid then (cid, c) else p) p
          = (p.1 == cid) := by
      intro p _
      by_cases hp : p.1 = cid
      · simp [hp]
      · simp [hp]
    rw [List.filter_congr hpt]
    rcases filter_key_singleton clients cid hmem hnodup with ⟨e, _, he1, hfil⟩
    rw [hfil]
    simp [he1]
  · rw [hins, List.length_map]

/-- C10 witness: a registry with two clients where id "a" is already
present; re-adding "a" with a new client value leaves exactly one entry
for "a", holding the new value, and the count stays 2. -/
theorem C10_add_client_replaces_witness :
    ([("a", Client.mk "a" true []), ("b", Client.mk "b" true [])].any
      (fun p => p.1 == "a") = true) ∧
    ((add_client [("a", Client.mk "a" true []), ("b", Client.mk "b" true [])]
        "a" (Client.mk "a" false ["m"])).filter (fun p => p.1 == "a") =
      [("a", Client.mk "a" false ["m"])] ∧
     (add_client [("a", Client.mk "a" true []), ("b", Client.mk "b" true [])]
        "a" (Client.mk "a" false ["m"])).length = 2) :=
  ⟨by decide,
   C10_add_client_replaces
     [("a", Client.mk "a" true []), ("b", Client.mk "b" true [])]
     "a" (Client.mk "a" false ["m"]) (by decide) (by decide)⟩

/-! ### Per-client send queue
(src/game-server/src/websocket/handler.rs line 19,
src/game-server/src/websocket/client_manager.rs lines 12-20,
src/game-server/src/websocket.rs lines 121-127)

Each accepted connection creates `mpsc::unbounded_channel()`; the sender
half is stored in the registry and every broadcast enqueues into it with
no capacity argument and no overflow branch anywhere in the code.  The
channel is modelled directly: a send while the receiver is alive always
succeeds and appends to the queue. -/

/-- State of one unbounded per-client channel. -/
structure UnboundedChannel where
  queue : List String
  receiverAlive : Bool
deriving DecidableEq

/-- Model of `UnboundedSender::send`: append unconditionally while the
receiver lives; there is no capacity parameter in the source. -/
def unbounded_send (ch : UnboundedChannel) (m : String) :
    UnboundedChannel × Bool :=
  if ch.receiverAlive then ({ ch with queue := ch.queue ++ [m] }, true)
  else (ch, false)

/-- Sequence of sends into one channel, as a stalled client experiences a
stream of broadcasts. -/
def send_many (ch : UnboundedChannel) (msgs : List String) : UnboundedChannel :=
  msgs.foldl (fun c m => (unbounded_send c m).1) ch

theorem send_many_queue (msgs : List String) :
    ∀ q : List String,
      (send_many ⟨q, true⟩ msgs).queue = q ++ msgs := by
  induction msgs with
  | nil => intro q; simp [send_many]
  | cons m rest ih =>
    intro q
    show (send_many ⟨q ++ [m], true⟩ rest).queue = q ++ m :: rest
    rw [ih (q ++ [m])]
    simp

/-- C7 refutation support: the per-client queue of the code is unbounded —
a fresh channel whose receiver is stalled holds every sent message, so
after n sends the queue length is exactly n; in particular 1001 queued
messages exceed a capacity of 1000.  No configured capacity or overflow
policy exists in the source, contradicting the claimed invariant. -/
theorem C7_unbounded_queue (msgs : List String) :
    (send_many ⟨[], true⟩ msgs).queue = msgs ∧
    (send_many ⟨[], true⟩ msgs).queue.length = msgs.length ∧
    (send_many ⟨[], true⟩ (List.replicate 1001 "transfer")).queue.length = 1001 := by
  have hq : ∀ ms : List String, (send_many ⟨[], true⟩ ms).queue = ms := by
    intro ms
    have h := send_many_queue ms []
    rwa [List.nil_append] at h
  refine ⟨hq msgs, by rw [hq msgs], ?_⟩
  rw [hq (List.replicate 1001 "transfer"), List.length_replicate]

/-! ### Decimal digit round-trip

The publishers render the block number with the standard decimal Display
(`Nat.repr` here) and the consumer parses it back with `u64::from_str`
(`parse_u64` here).  The lemmas below connect `Nat.repr` with
`Nat.digits` and establish the round-trip. -/

theorem toDigitsCore_eq :
    ∀ (fuel n : Nat) (acc : List Char), 0 < n → n < 10 ^ fuel →
      Nat.toDigitsCore 10 fuel n acc =
        ((Nat.digits 10 n).map Nat.digitChar).reverse ++ acc := by
  intro fuel
  induction fuel with
  | zero =>
    intro n acc hpos hlt
    simp at hlt
    omega
  | succ fuel ih =>
    intro n acc hpos hlt
    have hdig : Nat.digits 10 n = n % 10 :: Nat.digits 10 (n / 10) :=
      Nat.digits_def' (by norm_num) hpos
    by_cases hz : n / 10 = 0
    · have : Nat.digits 10 n = [n % 10] := by
        rw [hdig, hz]
        simp
      simp [Nat.toDigitsCore, hz, this]
    · have hpos' : 0 < n / 10 := Nat.pos_of_ne_zero hz
      have hlt' : n / 10 < 10 ^ fuel := by
        rw [Nat.div_lt_iff_lt_mul (by norm_num)]
        calc n < 10 ^ (fuel + 1) := hlt
          _ = 10 ^ fuel * 10 := by rw [Nat.pow_succ]
      simp only [Nat.toDigitsCore, hz, if_false]
      rw [ih (n / 10) (Nat.digitChar (n % 10) :: acc) hpos' hlt', hdig]
      simp

theorem repr_data_eq_digits (n : Nat) (hn : 0 < n) :
    (Nat.repr n).data = ((Nat.digits 10 n).map Nat.digitChar).reverse := by
  have hfuel : n < 10 ^ (n + 1) := by
    calc n < 10 ^ n := Nat.lt_pow_self (by norm_num) n
      _ ≤ 10 ^ (n + 1) := Nat.pow_le_pow_right (by norm_num) (Nat.le_succ n)
  show (Nat.toDigitsCore 10 (n + 1) n []).asString.data = _
  rw [toDigitsCore_eq (n + 1) n [] hn hfuel]
  simp [List.asString]

theorem digitChar_isDigit {d : Nat} (h : d < 10) :
    (Nat.digitChar d).isDigit = true := by
  interval_cases d <;> decide

theorem digitChar_toNat {d : Nat} (h : d < 10) :
    (Nat.digitChar d).toNat - 48 = d := by
  interval_cases d <;> decide

theorem digitsToNat_append_digit (xs : List Char) (c : Char) :
    digitsToNat (xs ++ [c]) = digitsToNat xs * 10 + (c.toNat - 48) := by
  unfold digitsToNat
  rw [List.foldl_append]
  rfl

theorem digitsToNat_reverse_map (l : List Nat) (h : ∀ d ∈ l, d < 10) :
    digitsToNat ((l.map Nat.digitChar).reverse) = Nat.ofDigits 10 l := by
  induction l with
  | nil => simp [digitsToNat, Nat.ofDigits]
  | cons d rest ih =>
    rw [List.map_cons, List.reverse_cons, digitsToNat_append_digit,
      ih (fun x hx => h x (List.mem_cons_of_mem d hx)),
      digitChar_toNat (h d (List.mem_cons_self d rest)), Nat.ofDigits_cons]
    ring

theorem all_isDigit_reverse_map (l : List Nat) (h : ∀ d ∈ l, d < 10) :
    ((l.map Nat.digitChar).reverse).all Char.isDigit = true := by
  rw [List.all_eq_true]
  intro c hcmem
  rw [List.mem_reverse] at hcmem
  rcases List.mem_map.mp hcmem with ⟨d, hd, rfl⟩
  exact digitChar_isDigit (h d hd)

theorem parse_u64_repr (n : Nat) (h : n < U64_SIZE) :
    parse_u64 (Nat.repr n) = some n := by
  by_cases hn : n = 0
  · subst hn
    decide
  · have hpos : 0 < n := Nat.pos_of_ne_zero hn
    have hdata := repr_data_eq_digits n hpos
    have hbounds : ∀ d ∈ Nat.digits 10 n, d < 10 := fun d hd =>
      Nat.digits_lt_base (by norm_num) hd
    have hne : Nat.digits 10 n ≠ [] := by
      simpa [Nat.digits_ne_nil_iff_ne_zero] using hn
    have hrevne : ((Nat.digits 10 n).map Nat.digitChar).reverse ≠ [] := by
      simp [hne]
    obtain ⟨c, cs, heq⟩ := List.exists_cons_of_ne_nil hrevne
    have halldig : (c :: cs).all Char.isDigit = true := by
      rw [← heq]
      exact all_isDigit_reverse_map _ hbounds
    have hcdig : c.isDigit = true :=
      List.all_eq_true.mp halldig c (List.mem_cons_self c cs)
    have hcplus : ¬ c = '+' := by
      intro hcp
      rw [hcp] at hcdig
      exact absurd hcdig (by decide)
    have hval : digitsToNat (c :: cs) = n := by
      rw [← heq, digitsToNat_reverse_map _ hbounds, Nat.ofDigits_digits]
    unfold parse_u64
    rw [show (Nat.repr n).data = c :: cs from hdata.trans heq]
    simp [hcplus, halldig, hval, h]

/-! ### Durable-stream entry schema and the consumer decoder

Writers:
`RedisPublisher::publish` (src/block-monitor/src/redis_publisher.rs,
lines 76-104) appends fields data, stablecoin, amount, from, to, block,
tx_hash;
`RedisPublisher::publish_to_stream` (src/block-monitor/src/services/
publisher.rs, lines 67-89) appends fields stablecoin, amount, from, to,
block_number, tx_hash.
Reader: `parse_stream_data` (src/game-server/src/redis_consumer.rs,
lines 168-186) requires stablecoin, amount, from, to, block, tx_hash. -/

/-- A redis reply value: a UTF-8 bulk string or anything else (other
value kinds and invalid UTF-8 both make `get_string` fail). -/
inductive RedisValue where
  | bulk (s : String)
  | other
deriving DecidableEq

/-- TransactionData shared by monitor and game-server crates. -/
structure TransactionData where
  stablecoin : String
  amount : String
  fromAddr : String
  toAddr : String
  block_number : Nat
  tx_hash : String
deriving DecidableEq

/-- Embedding of the `get_string` closure of `parse_stream_data`. -/
def get_string (data : List (String × RedisValue)) (key : String) :
    Option String :=
  match List.lookup key data with
  | some (RedisValue.bulk s) => some s
  | _ => none

/-- Embedding of the `get_u64` closure of `parse_stream_data`. -/
def get_u64 (data : List (String × RedisValue)) (key : String) : Option Nat :=
  (get_string data key).bind parse_u64

/-- Embedding of `parse_stream_data`: all six fields must decode. -/
def parse_stream_data (data : List (String × RedisValue)) :
    Option TransactionData :=
  (get_string data "stablecoin").bind fun stablecoin =>
  (get_string data "amount").bind fun amount =>
  (get_string data "from").bind fun fromAddr =>
  (get_string data "to").bind fun toAddr =>
  (get_u64 data "block").bind fun block_number =>
  (get_string data "tx_hash").map fun tx_hash =>
  ⟨stablecoin, amount, fromAddr, toAddr, block_number, tx_hash⟩

/-- Field list appended by `RedisPublisher::publish` in
redis_publisher.rs; `json` stands for the serde serialization stored
under the data key. -/
def redis_publisher_entries (tx : TransactionData) (json : String) :
    List (String × RedisValue) :=
  [("data", RedisValue.bulk json),
   ("stablecoin", RedisValue.bulk tx.stablecoin),
   ("amount", RedisValue.bulk tx.amount),
   ("from", RedisValue.bulk tx.fromAddr),
   ("to", RedisValue.bulk tx.toAddr),
   ("block", RedisValue.bulk (Nat.repr tx.block_number)),
   ("tx_hash", RedisValue.bulk tx.tx_hash)]

/-- Field list appended by `RedisPublisher::publish_to_stream` in
services/publisher.rs: the block number is stored under block_number,
not block. -/
def publish_to_stream_entries (tx : TransactionData) :
    List (String × RedisValue) :=
  [("stablecoin", RedisValue.bulk tx.stablecoin),
   ("amount", RedisValue.bulk tx.amount),
   ("from", RedisValue.bulk tx.fromAddr),
   ("to", RedisValue.bulk tx.toAddr),
   ("block_number", RedisValue.bulk (Nat.repr tx.block_number)),
   ("tx_hash", RedisValue.bulk tx.tx_hash)]

/-- C8 (amended): entries appended by redis_publisher.rs carry the
string fields stablecoin, amount, from, to, block and tx_hash, and the
consumer decoder recovers the published message exactly (round-trip);
entries appended by the refactored services/publisher.rs sink store the
block number under the key block_number instead of block, so the cited
consumer decoder rejects every one of them. -/
theorem C8_stream_roundtrip (tx : TransactionData) (json : String)
    (h : tx.block_number < U64_SIZE) :
    parse_stream_data (redis_publisher_entries tx json) = some tx ∧
    parse_stream_data (publish_to_stream_entries tx) = none := by
  constructor
  · have hb : get_u64 (redis_publisher_entries tx json) "block" =
        some tx.block_number := by
      unfold get_u64
      rw [show get_string (redis_publisher_entries tx json) "block" =
        some (Nat.repr tx.block_number) from rfl]
      rw [Option.some_bind]
      exact parse_u64_repr tx.block_number h
    show (get_string (redis_publisher_entries tx json) "stablecoin").bind _ = _
    rw [show get_string (redis_publisher_entries tx json) "stablecoin" =
      some tx.stablecoin from rfl]
    simp only [Option.some_bind]
    rw [show get_string (redis_publisher_entries tx json) "amount" =
      some tx.amount from rfl]
    simp only [Option.some_bind]
    rw [show get_string (redis_publisher_entries tx json) "from" =
      some tx.fromAddr from rfl]
    simp only [Option.some_bind]
    rw [show get_string (redis_publisher_entries tx json) "to" =
      some tx.toAddr from rfl]
    simp only [Option.some_bind]
    rw [hb]
    simp only [Option.some_bind]
    rw [show get_string (redis_publisher_entries tx json) "tx_hash" =
      some tx.tx_hash from rfl]
    rfl
  · rfl

/-- C8 witness: the amended round-trip applied to a concrete USDC
transfer message at block 100. -/
theorem C8_stream_roundtrip_witness :
    (100 < U64_SIZE) ∧
    (parse_stream_data (redis_publisher_entries
        ⟨"USDC", "1.500000", "0xaaaaaaaaaaaaaaaaaaaa", "0xbbbbbbbbbbbbbbbbbbbb",
         100, "0xcccc"⟩ "{}") =
      some ⟨"USDC", "1.500000", "0xaaaaaaaaaaaaaaaaaaaa", "0xbbbbbbbbbbbbbbbbbbbb",
         100, "0xcccc"⟩ ∧
     parse_stream_data (publish_to_stream_entries
        ⟨"USDC", "1.500000", "0xaaaaaaaaaaaaaaaaaaaa", "0xbbbbbbbbbbbbbbbbbbbb",
         100, "0xcccc"⟩) = none) :=
  ⟨by decide,
   C8_stream_roundtrip
     ⟨"USDC", "1.500000", "0xaaaaaaaaaaaaaaaaaaaa", "0xbbbbbbbbbbbbbbbbbbbb",
      100, "0xcccc"⟩ "{}" (by decide)⟩

/-- C8 counterexample: a concrete entry appended by the durable-stream
sink `publish_to_stream` lacks the block key (it carries block_number),
so the cited consumer field decoder `parse_stream_data` fails on it —
the claimed publish/consume round-trip does not hold for that sink. -/
theorem C8_counterexample :
    parse_stream_data (publish_to_stream_entries
      ⟨"USDT", "2.500000", "0x11111111111111111111", "0x22222222222222222222",
       12345, "0xdddd"⟩) = none ∧
    (some ⟨"USDT", "2.500000", "0x11111111111111111111", "0x22222222222222222222",
       12345, "0xdddd"⟩ : Option TransactionData) ≠ none := by
  exact ⟨rfl, by simp⟩

/-! ### Consumer loop robustness
(src/game-server/src/redis_consumer.rs, lines 106-147)

`RedisConsumer::process_messages` iterates the entries of a stream read
reply.  A parsed entry is logged with `&data.from[..10]` and
`&data.to[..10]`: Rust byte-slicing of a String, which panics when the
string is shorter than 10 bytes (the entries considered here are ASCII,
so byte length and character count coincide).  A panic aborts the whole
loop; it is modelled as an error result that discards the remaining
batch.  An unparsed entry is logged and skipped; a parsed entry with
long enough addresses is broadcast and then acknowledged. -/

/-- Observable consumer-loop actions. -/
inductive GsEvent where
  | broadcasted (tx : TransactionData)
  | acked (id : String)
  | skipped
deriving DecidableEq

/-- Embedding of `RedisConsumer::process_messages` over a batch of
(entry id, field map) pairs; `Except.error` models a panic unwinding the
loop. -/
def process_messages (entries : List (String × List (String × RedisValue))) :
    Except String (List GsEvent) :=
  match entries with
  | [] => Except.ok []
  | (id, fields) :: rest =>
    match parse_stream_data fields with
    | some data =>
      if data.fromAddr.length < 10 then
        Except.error "byte index 10 is out of bounds in from slice"
      else if data.toAddr.length < 10 then
        Except.error "byte index 10 is out of bounds in to slice"
      else
        match process_messages rest with
        | Except.ok evs => Except.ok (GsEvent.broadcasted data :: GsEvent.acked id :: evs)
        | Except.error e => Except.error e
    | none =>
      match process_messages rest with
      | Except.ok evs => Except.ok (GsEvent.skipped :: evs)
      | Except.error e => Except.error e

/-- Stream entry whose fields all parse but whose from field is the
3-byte string "0x1". -/
def c9_bad_entry : String × List (String × RedisValue) :=
  ("1700000000000-0",
   [("stablecoin", RedisValue.bulk "USDC"),
    ("amount", RedisValue.bulk "1.500000"),
    ("from", RedisValue.bulk "0x1"),
    ("to", RedisValue.bulk "0x22222222222222222222"),
    ("block", RedisValue.bulk "100"),
    ("tx_hash", RedisValue.bulk "0xcccc")])

/-- Well-formed stream entry with 20-byte 0x-prefixed addresses. -/
def c9_good_entry : String × List (String × RedisValue) :=
  ("1700000000001-0",
   [("stablecoin", RedisValue.bulk "DAI"),
    ("amount", RedisValue.bulk "3.000000000000000000"),
    ("from", RedisValue.bulk "0x33333333333333333333"),
    ("to", RedisValue.bulk "0x44444444444444444444"),
    ("block", RedisValue.bulk "101"),
    ("tx_hash", RedisValue.bulk "0xeeee")])

/-- C9 evaluation: the bad entry parses successfully, a batch holding
only the good entry is fully processed (broadcast then ack), but a batch
whose first entry has the short from field panics in the logging slice
and aborts, losing the remaining good entry — one bad record halts
processing of the rest of the batch, contradicting the claim. -/
theorem C9_short_from_aborts_batch :
    parse_stream_data c9_bad_entry.2 =
      some ⟨"USDC", "1.500000", "0x1", "0x22222222222222222222", 100, "0xcccc"⟩ ∧
    process_messages [c9_good_entry] =
      Except.ok [GsEvent.broadcasted
        ⟨"DAI", "3.000000000000000000", "0x33333333333333333333",
         "0x44444444444444444444", 101, "0xeeee"⟩,
        GsEvent.acked "1700000000001-0"] ∧
    process_messages [c9_bad_entry, c9_good_entry] =
      Except.error "byte index 10 is out of bounds in from slice" := by
  refine ⟨rfl, rfl, rfl⟩

end Eathereum
